import Mathlib

/-!
# pypilot `lcd/ugfx/splash.cpp`

A shallow embedding of the splash-screen program and the properties of its
backend selection, image unpacking loop, scale factor, drawing order and
blink loop.

The graphics library (`ugfx.h`: `surface`, `screen`, `spiscreen`) and the two
image headers (`pypilot_logo.h`, `pypilot_version.h`) are not part of the
source file.  The library enters as a record of functions `Ugfx S` over an
arbitrary surface type `S`; a header enters as a record `Header D` holding
`width`, `height`, `header_data` and the `HEADER_PIXEL` macro as a step
function.
-/

namespace Splash

/-! ## The external library and the image headers, as parameters -/

/-- An `unsigned char`. -/
abbrev Byte := Fin 256

/-- The array `unsigned char pixel[4]`. -/
abbrev Pixel := Fin 4 → Byte

/-- One cell of the stack array `char data32[...]`: `none` is a cell that has
not been written yet (its value is indeterminate), `some b` a written cell. -/
abbrev Cell := Option Byte

/-- The member functions and constructors of the `surface` class family that
`splash.cpp` uses.  A member function that changes its object returns the new
value of the object. -/
structure Ugfx (S : Type) where
  /-- The member `width`, read as `s->width`. -/
  width : S → Int
  /-- The member `height`, read as `s->height`. -/
  height : S → Int
  /-- The member `bypp` (bytes per pixel), read as `s->bypp`. -/
  bypp : S → Int
  /-- The constructor call `new spiscreen(n)`. -/
  spiscreen : Int → S
  /-- The constructor call `new screen(path)`. -/
  screen : String → S
  /-- The constructor call `new surface(width, height, bypp, data32)`. -/
  surface : Int → Int → Int → List Cell → S
  /-- The constructor call `new surface(other)`. -/
  surfaceFrom : S → S
  /-- The call `dst->blit(src, x, y)`. -/
  blit : S → S → Int → Int → S
  /-- The call `dst->magnify(src, factor)`. -/
  magnify : S → S → Int → S
  /-- The call `dst->invert(x1, y1, x2, y2)`. -/
  invert : S → Int → Int → Int → Int → S
  /-- The call `dst->fill(c)`. -/
  fill : S → Int → S
  /-- The call `dst->refresh()`. -/
  refresh : S → S

/-- What an included image header provides to `LOAD()`: the two dimensions,
the start of the encoded data, and the macro `HEADER_PIXEL(data, pixel)`,
which reads and updates both the cursor `data` and the array `pixel`. -/
structure Header (D : Type) where
  width : Nat
  height : Nat
  header_data : D
  HEADER_PIXEL : D × Pixel → D × Pixel

/-! ## `LOAD()` (lines 18-27), `load_logo`, `load_version` (lines 29-41) -/

/-- The local variables of `LOAD()` while the loop runs; `p` is the offset of
the pointer `p` from `data32`, and `i` the loop counter, which is also the
number of `HEADER_PIXEL` applications performed so far.  `writes` is not a
variable of the program: it records the indices of `data32` written so far,
oldest first. -/
structure LoadState (D : Type) where
  data : D
  pixel : Pixel
  data32 : List Cell
  p : Nat
  i : Nat
  writes : List Nat

/-- The call `memcpy(p, pixel, 4)`: writes `pixel[0..3]` to the cells
`p .. p+3` of the buffer.  A write outside the buffer has no defined result
(`none`). -/
def memcpy4 (data32 : List Cell) (p : Nat) (pixel : Pixel) : Option (List Cell) :=
  if p + 4 ≤ data32.length then
    some ((((data32.set p (some (pixel 0))).set (p + 1) (some (pixel 1))).set
      (p + 2) (some (pixel 2))).set (p + 3) (some (pixel 3)))
  else
    none

/-- The body of the `for` loop: `HEADER_PIXEL(data, pixel); memcpy(p, pixel, 4);
p += 4;` followed by `i++`. -/
def loadBody {D : Type} (hp : D × Pixel → D × Pixel) (st : LoadState D) :
    Option (LoadState D) :=
  let r := hp (st.data, st.pixel)
  match memcpy4 st.data32 st.p r.2 with
  | none => none
  | some buf =>
    some { data := r.1, pixel := r.2, data32 := buf, p := st.p + 4, i := st.i + 1
           writes := st.writes ++ [st.p, st.p + 1, st.p + 2, st.p + 3] }

/-- The loop `for(int i = 0; i<width*height; i++) { ... }`, by recursion on the
number of iterations still to run (`width*height - i`). -/
def loadLoop {D : Type} (hp : D × Pixel → D × Pixel) : Nat → LoadState D → Option (LoadState D)
  | 0, st => some st
  | k + 1, st =>
    match loadBody hp st with
    | none => none
    | some st1 => loadLoop hp k st1

/-- The declarations that open `LOAD()`: `data = header_data`, `pixel = {0}`,
`char data32[4*width*height]` (unwritten), `p = data32`. -/
def loadInit {D : Type} (H : Header D) : LoadState D :=
  { data := H.header_data
    pixel := fun _ => 0
    data32 := List.replicate (4 * H.width * H.height) none
    p := 0
    i := 0
    writes := [] }

/-- The state of the locals when the loop of `LOAD()` is left. -/
def loadRun {D : Type} (H : Header D) : Option (LoadState D) :=
  loadLoop H.HEADER_PIXEL (H.width * H.height) (loadInit H)

/-- The macro `LOAD()`: run the loop, then
`return new surface(width, height, bypp, data32)`. -/
def LOAD {S D : Type} (L : Ugfx S) (H : Header D) (bypp : Int) : Option S :=
  match loadRun H with
  | none => none
  | some st => some (L.surface H.width H.height bypp st.data32)

/-- The function `surface *load_logo(int bypp)`; `H` is `pypilot_logo.h`. -/
def load_logo {S D : Type} (L : Ugfx S) (H : Header D) (bypp : Int) : Option S :=
  LOAD L H bypp

/-- The function `surface *load_version(int bypp)`; `H` is `pypilot_version.h`. -/
def load_version {S D : Type} (L : Ugfx S) (H : Header D) (bypp : Int) : Option S :=
  LOAD L H bypp

/-! ## Backend selection (lines 45-60) -/

/-- The display backend that `main` constructs. -/
inductive Backend where
  | spiscreen (n : Int)
  | screen (path : String)
  deriving DecidableEq, Repr

/-- How the backend selection ends: with a backend to construct, or with the
text printed by `printf` and the status passed to `exit`. -/
inductive Selection where
  | backend (b : Backend)
  | exit (stdout : String) (status : Int)
  deriving DecidableEq, Repr

/-- Lines 46-60 of `main`.  `WIRINGPI` tells whether the preprocessor symbol is
defined; `argv` is the argument list, `argc` its length.  With the symbol
undefined, lines 47-58 are not compiled and line 60 stands alone. -/
def selectBackend (WIRINGPI : Bool) (argv : List String) : Selection :=
  if WIRINGPI then
    if argv.length > 1 then
      if argv.getD 1 "" = "auto" then
        .backend (.spiscreen (-1))
      else if argv.getD 1 "" = "nokia5110" then
        .backend (.spiscreen 0)
      else if argv.getD 1 "" = "jlx12864" then
        .backend (.spiscreen 1)
      else
        .exit ("unknown lcd " ++ argv.getD 1 "" ++ "\n") 1
    else
      .backend (.screen "/dev/fb0")
  else
    .backend (.screen "/dev/fb0")

/-- The `new` expression for the selected backend. -/
def construct {S : Type} (L : Ugfx S) : Backend → S
  | .spiscreen n => L.spiscreen n
  | .screen path => L.screen path

/-! ## The scale factor (lines 80-84) -/

/-- The conversion of a floating-point value to `int` (line 84), which discards
the fractional part (rounds toward zero); the value is taken as a rational. -/
def toInt (q : ℚ) : Int :=
  Int.tdiv q.num q.den

/-- Lines 80, 81 and 84 of `main`, with the divisions taken in exact rational
arithmetic: `facw = width/width`, `fach = height/height` of the framebuffer
over the logo, `facf = facw < fach ? facw : fach`, `int fac = facf`. -/
def fac (fw fh lw lh : Int) : Int :=
  let facw : ℚ := (fw : ℚ) / (lw : ℚ)
  let fach : ℚ := (fh : ℚ) / (lh : ℚ)
  let facf : ℚ := if facw < fach then facw else fach
  toInt facf

/-- The offset arguments of the call on line 86:
`logo->width - version->width, logo->height - version->height`. -/
def versionOffset (lw lh vw vh : Int) : Int × Int :=
  (lw - vw, lh - vh)

/-! ## The calls `main` issues -/

/-- The four surfaces `main` holds pointers to. -/
inductive SurfId where
  | framebuffer
  | logo
  | version
  | logom
  deriving DecidableEq, Repr

/-- A call of a member function of a surface, or of `usleep`, with the values
of its arguments at the time of the call. -/
inductive Call where
  | blit (dst src : SurfId) (x y : Int)
  | magnify (dst src : SurfId) (factor : Int)
  | invert (dst : SurfId) (x1 y1 x2 y2 : Int)
  | fill (dst : SurfId) (c : Int)
  | refresh (dst : SurfId)
  | usleep (usec : Int)
  deriving DecidableEq, Repr

/-- The statements of lines 96-108, as program points: the test of `while(1)`,
the nine statements of the loop body, `delete framebuffer`, and the end of
`main`. -/
inductive PC where
  | whileTest
  | l97_fill0
  | l98_refresh
  | l99_usleep
  | l100_fill255
  | l101_refresh
  | l102_usleep
  | l103_blit
  | l104_refresh
  | l105_usleep
  | l108_delete
  | returned
  deriving DecidableEq, Repr

/-- The state of `main` from line 96 on: the program point, the values of
`*framebuffer` and `*logom`, the calls issued since the start of `main`
(oldest first), and the values `*framebuffer` had at each `refresh()` call
(oldest first), that is, the frames sent to the display. -/
structure State (S : Type) where
  pc : PC
  framebuffer : S
  logom : S
  trace : List Call
  frames : List S

/-- How lines 45-93 of `main` end: in `exit`, in an out-of-bounds write of
`LOAD()`, or at line 96 with a state. -/
inductive Outcome (S : Type) where
  | exit (stdout : String) (status : Int)
  | undefined
  | running (st : State S)

/-- Lines 63-93 of `main`, given `*framebuffer`, `*logo` and `*version`.  The
region between `#else` and `#endif` (lines 66-78) follows `#if 1` and is not
compiled. -/
def drawSplash {S : Type} (L : Ugfx S) (framebuffer logo version : S) : State S :=
  let fac := fac (L.width framebuffer) (L.height framebuffer) (L.width logo) (L.height logo)
  let logom := L.surfaceFrom framebuffer
  let off := versionOffset (L.width logo) (L.height logo) (L.width version) (L.height version)
  let logo1 := L.blit logo version off.1 off.2
  let logom1 := L.magnify logom logo1 fac
  let logom2 := L.invert logom1 0 0 (L.width logom1) (L.height logom1)
  let fb1 := L.fill framebuffer 255
  let fb2 := L.blit fb1 logom2 0 0
  let fb3 := L.refresh fb2
  { pc := .whileTest
    framebuffer := fb3
    logom := logom2
    trace :=
      [ .blit .logo .version off.1 off.2,
        .magnify .logom .logo fac,
        .invert .logom 0 0 (L.width logom1) (L.height logom1),
        .fill .framebuffer 255,
        .blit .framebuffer .logom 0 0,
        .refresh .framebuffer ]
    frames := [fb2] }

/-- Lines 45-93 of `main`: select and construct the backend, load the two
images with the bytes per pixel of the framebuffer, draw the splash screen. -/
def mainPrelude {S D : Type} (L : Ugfx S) (WIRINGPI : Bool) (argv : List String)
    (logoH versionH : Header D) : Outcome S :=
  match selectBackend WIRINGPI argv with
  | .exit out status => .exit out status
  | .backend b =>
    let framebuffer := construct L b
    match load_logo L logoH (L.bypp framebuffer) with
    | none => .undefined
    | some logo =>
      match load_version L versionH (L.bypp framebuffer) with
      | none => .undefined
      | some version => .running (drawSplash L framebuffer logo version)

/-! ## The blink loop (lines 95-108) -/

/-- The controlling expression of `while(1)`. -/
def whileCondition : Int := 1

/-- One statement of lines 96-108.  The loop test goes to the body when the
controlling expression is nonzero and to `delete framebuffer` otherwise; the
last statement of the body goes back to the test.  After the end of `main`
there is no step. -/
def step {S : Type} (L : Ugfx S) (st : State S) : Option (State S) :=
  match st.pc with
  | .whileTest =>
    if whileCondition ≠ 0 then some { st with pc := .l97_fill0 }
    else some { st with pc := .l108_delete }
  | .l97_fill0 =>
    some { st with pc := .l98_refresh
                   framebuffer := L.fill st.framebuffer 0
                   trace := st.trace ++ [.fill .framebuffer 0] }
  | .l98_refresh =>
    some { st with pc := .l99_usleep
                   framebuffer := L.refresh st.framebuffer
                   trace := st.trace ++ [.refresh .framebuffer]
                   frames := st.frames ++ [st.framebuffer] }
  | .l99_usleep =>
    some { st with pc := .l100_fill255
                   trace := st.trace ++ [.usleep 1000000] }
  | .l100_fill255 =>
    some { st with pc := .l101_refresh
                   framebuffer := L.fill st.framebuffer 255
                   trace := st.trace ++ [.fill .framebuffer 255] }
  | .l101_refresh =>
    some { st with pc := .l102_usleep
                   framebuffer := L.refresh st.framebuffer
                   trace := st.trace ++ [.refresh .framebuffer]
                   frames := st.frames ++ [st.framebuffer] }
  | .l102_usleep =>
    some { st with pc := .l103_blit
                   trace := st.trace ++ [.usleep 1000000] }
  | .l103_blit =>
    some { st with pc := .l104_refresh
                   framebuffer := L.blit st.framebuffer st.logom 0 0
                   trace := st.trace ++ [.blit .framebuffer .logom 0 0] }
  | .l104_refresh =>
    some { st with pc := .l105_usleep
                   framebuffer := L.refresh st.framebuffer
                   trace := st.trace ++ [.refresh .framebuffer]
                   frames := st.frames ++ [st.framebuffer] }
  | .l105_usleep =>
    some { st with pc := .whileTest
                   trace := st.trace ++ [.usleep 1000000] }
  | .l108_delete => some { st with pc := .returned }
  | .returned => none

/-- The step relation of lines 96-108. -/
def Step {S : Type} (L : Ugfx S) (s t : State S) : Prop :=
  step L s = some t

/-- The states reachable from `s` by finitely many steps. -/
inductive Reachable {S : Type} (L : Ugfx S) (s : State S) : State S → Prop where
  | refl : Reachable L s s
  | tail {t u : State S} : Reachable L s t → Step L t u → Reachable L s u

/-- Runs `n` steps from `st`; `none` when `main` has ended before. -/
def steps {S : Type} (L : Ugfx S) : Nat → State S → Option (State S)
  | 0, st => some st
  | n + 1, st =>
    match step L st with
    | none => none
    | some st1 => steps L n st1

/-- The program points inside the `while(1)` statement. -/
def PC.inLoop : PC → Bool
  | .l108_delete => false
  | .returned => false
  | _ => true

/-- The nine calls of one pass through the loop body. -/
def blinkCalls : List Call :=
  [ .fill .framebuffer 0, .refresh .framebuffer, .usleep 1000000,
    .fill .framebuffer 255, .refresh .framebuffer, .usleep 1000000,
    .blit .framebuffer .logom 0 0, .refresh .framebuffer, .usleep 1000000 ]

/-- The state at the next loop test, for a state at the loop test: the effect
of the nine statements of the loop body, in order. -/
def afterCycle {S : Type} (L : Ugfx S) (s : State S) : State S :=
  let fbA := L.refresh (L.fill s.framebuffer 0)
  let fbB := L.refresh (L.fill fbA 255)
  let fbC := L.blit fbB s.logom 0 0
  { pc := .whileTest
    framebuffer := L.refresh fbC
    logom := s.logom
    trace := s.trace ++ blinkCalls
    frames := s.frames ++ [L.fill s.framebuffer 0, L.fill fbA 255, fbC] }

/-- The frames sent to the display up to the end of pass `n` of the loop, when
each pass sends `Z`, `W` and `F` and the frame sent before the loop is `F`. -/
def blinkFrames {S : Type} (Z W F : S) : Nat → List S
  | 0 => [F]
  | n + 1 => blinkFrames Z W F n ++ [Z, W, F]

/-! ## A pixel model of the library -/

/-- Modelled from the spec: the class `surface` of `ugfx` is not in the source
file.  A surface is its geometry and its pixel values, row by row. -/
structure Surf where
  width : Int
  height : Int
  bypp : Int
  pixels : List Int
  deriving DecidableEq, Repr

/-- Modelled from the spec: the operations of `ugfx` on which nothing is
assumed.  `blit` gives the new pixel values of the destination from the
destination, the source and the offset; it cannot change the geometry of the
destination, and no operation changes its source. -/
structure Drawing where
  spiscreen : Int → Surf
  screen : String → Surf
  surface : Int → Int → Int → List Cell → Surf
  surfaceFrom : Surf → Surf
  blit : Surf → Surf → Int → Int → List Int
  magnify : Surf → Surf → Int → Surf
  invert : Surf → Int → Int → Int → Int → Surf

/-- Modelled from the spec: `fill(c)` of `ugfx` overwrites every pixel of the
surface with `c`. -/
def fillSurf (s : Surf) (c : Int) : Surf :=
  { s with pixels := List.replicate (s.width * s.height).toNat c }

/-- Modelled from the spec: the library `ugfx` with `fill` overwriting every
pixel, `blit` a function of destination, source and offset, and `refresh`
leaving the pixel values as they are. -/
def pixelUgfx (R : Drawing) : Ugfx Surf where
  width := fun s => s.width
  height := fun s => s.height
  bypp := fun s => s.bypp
  spiscreen := R.spiscreen
  screen := R.screen
  surface := R.surface
  surfaceFrom := R.surfaceFrom
  blit := fun dst src x y => { dst with pixels := R.blit dst src x y }
  magnify := R.magnify
  invert := R.invert
  fill := fillSurf
  refresh := fun s => s

/-! ## A small instance, for evaluation -/

/-- A 2 by 1 image whose encoded data is a list of bytes; its `HEADER_PIXEL`
takes the next byte as the first component of the pixel. -/
def demoHeader : Header (List Byte) where
  width := 2
  height := 1
  header_data := [7, 9]
  HEADER_PIXEL := fun r => (r.1.tail, fun j => if j = 0 then r.1.headD 0 else 0)

/-- A library instance in which a surface keeps only its geometry, every
display is 128 by 64 and `magnify` scales the geometry of the source. -/
def demoDrawing : Drawing where
  spiscreen := fun _ => { width := 128, height := 64, bypp := 1, pixels := [] }
  screen := fun _ => { width := 128, height := 64, bypp := 1, pixels := [] }
  surface := fun w h b _ => { width := w, height := h, bypp := b, pixels := [] }
  surfaceFrom := fun s => s
  blit := fun dst _ _ _ => dst.pixels
  magnify := fun dst src f => { dst with width := src.width * f, height := src.height * f }
  invert := fun dst _ _ _ _ => dst

theorem memcpy4_eq_some (buf : List Cell) (p : Nat) (px : Pixel) (h : p + 4 ≤ buf.length) :
    memcpy4 buf p px = some ((((buf.set p (some (px 0))).set (p + 1) (some (px 1))).set
      (p + 2) (some (px 2))).set (p + 3) (some (px 3))) := by
  unfold memcpy4
  rw [if_pos h]

theorem loadLoop_spec {D : Type} (hp : D × Pixel → D × Pixel) :
    ∀ (k : Nat) (st : LoadState D), st.p + 4 * k ≤ st.data32.length →
      ∃ st1, loadLoop hp k st = some st1 ∧ st1.i = st.i + k ∧ st1.p = st.p + 4 * k ∧
        (st1.data, st1.pixel) = hp^[k] (st.data, st.pixel) ∧
        st1.data32.length = st.data32.length ∧
        (∀ idx, idx < st.p → st1.data32[idx]? = st.data32[idx]?) ∧
        (∀ i, i < k → ∀ j : Fin 4,
          st1.data32[st.p + 4 * i + j.val]? = some (some ((hp^[i + 1] (st.data, st.pixel)).2 j))) ∧
        st1.writes.length = st.writes.length + 4 * k ∧
        (∀ x, x ∈ st1.writes → x ∈ st.writes ∨ x < st.p + 4 * k) := by
  intro k
  induction k with
  | zero =>
    intro st _
    exact ⟨st, rfl, rfl, rfl, rfl, rfl, fun _ _ => rfl, fun i hi => absurd hi (Nat.not_lt_zero i),
      rfl, fun _ hx => Or.inl hx⟩
  | succ k ih =>
    intro st hst
    have hlen : st.p + 4 ≤ st.data32.length := by omega
    obtain ⟨st1, hrun, hi, hp1, hdata, hl, hlow, hcells, hwl, hw⟩ :=
      ih { data := (hp (st.data, st.pixel)).1
           pixel := (hp (st.data, st.pixel)).2
           data32 := (((st.data32.set st.p (some ((hp (st.data, st.pixel)).2 0))).set (st.p + 1)
              (some ((hp (st.data, st.pixel)).2 1))).set (st.p + 2)
              (some ((hp (st.data, st.pixel)).2 2))).set (st.p + 3)
              (some ((hp (st.data, st.pixel)).2 3))
           p := st.p + 4
           i := st.i + 1
           writes := st.writes ++ [st.p, st.p + 1, st.p + 2, st.p + 3] }
        (by simp only [List.length_set]; omega)
    dsimp only at hi hp1 hdata hl hlow hcells hwl hw
    refine ⟨st1, ?_, ?_, ?_, ?_, ?_, ?_, ?_, ?_, ?_⟩
    · simp only [loadLoop, loadBody, memcpy4_eq_some _ _ _ hlen]
      exact hrun
    · rw [hi]; omega
    · rw [hp1]; omega
    · rw [hdata, Function.iterate_succ_apply]
    · rw [hl]; simp only [List.length_set]
    · intro idx hidx
      rw [hlow idx (by show idx < st.p + 4; omega)]
      simp only [List.getElem?_set]
      rw [if_neg (by omega), if_neg (by omega), if_neg (by omega), if_neg (by omega)]
    · intro i hik j
      cases i with
      | zero =>
        rw [hlow (st.p + 4 * 0 + j.val) (by show st.p + 4 * 0 + j.val < st.p + 4; omega)]
        simp only [List.getElem?_set, List.length_set, Function.iterate_succ_apply,
          Function.iterate_zero, id_eq]
        have hj := j.isLt
        match j with
        | ⟨0, _⟩ => simp; omega
        | ⟨1, _⟩ => simp; omega
        | ⟨2, _⟩ => simp; omega
        | ⟨3, _⟩ => simp; omega
      | succ i =>
        have h := hcells i (by omega) j
        rw [Function.iterate_succ_apply (f := hp) (n := i + 1)]
        have e : st.p + 4 * (i + 1) + j.val = st.p + 4 + 4 * i + j.val := by omega
        rw [e]
        exact h
    · rw [hwl]
      simp only [List.length_append, List.length_cons, List.length_nil]
      omega
    · intro x hx
      rcases hw x hx with h | h
      · simp only [List.mem_append, List.mem_cons, List.mem_singleton, List.not_mem_nil,
          or_false] at h
        rcases h with h | h | h | h | h
        · exact Or.inl h
        all_goals exact Or.inr (by omega)
      · exact Or.inr (by omega)

theorem loadRun_spec {D : Type} (H : Header D) :
    ∃ st, loadRun H = some st ∧ st.i = H.width * H.height ∧ st.p = 4 * H.width * H.height ∧
      (st.data, st.pixel) = H.HEADER_PIXEL^[H.width * H.height] (H.header_data, fun _ => 0) ∧
      st.data32.length = 4 * H.width * H.height ∧
      (∀ i, i < H.width * H.height → ∀ j : Fin 4,
        st.data32[4 * i + j.val]? =
          some (some ((H.HEADER_PIXEL^[i + 1] (H.header_data, fun _ => 0)).2 j))) ∧
      st.writes.length = 4 * H.width * H.height ∧
      (∀ x, x ∈ st.writes → x < 4 * H.width * H.height) := by
  obtain ⟨st, hrun, hi, hp, hdata, hl, _, hcells, hwl, hw⟩ :=
    loadLoop_spec H.HEADER_PIXEL (H.width * H.height) (loadInit H)
      (by simp only [loadInit, List.length_replicate]; rw [Nat.mul_assoc]; omega)
  simp only [loadInit, List.length_replicate, Nat.zero_add, List.length_nil,
    List.not_mem_nil, false_or] at hi hp hdata hl hcells hwl hw
  refine ⟨st, hrun, hi, ?_, hdata, hl, hcells, ?_, ?_⟩
  · rw [hp, Nat.mul_assoc]
  · rw [hwl, Nat.mul_assoc]
  · intro x hx
    rw [Nat.mul_assoc]
    exact hw x hx

theorem LOAD_eq {S D : Type} (L : Ugfx S) (H : Header D) (bypp : Int) :
    ∃ st, loadRun H = some st ∧ LOAD L H bypp = some (L.surface H.width H.height bypp st.data32) := by
  obtain ⟨st, hrun, _⟩ := loadRun_spec H
  exact ⟨st, hrun, by simp only [LOAD, hrun]⟩

/-! ## Lemmas on the scale factor -/

theorem toInt_of_nonneg (q : ℚ) (h : 0 ≤ q) : toInt q = ⌊q⌋ := by
  unfold toInt
  rw [Rat.floor_def]
  exact Int.tdiv_eq_ediv (Rat.num_nonneg.mpr h) (Int.ofNat_nonneg _)

theorem floor_div_pos (a b : Int) (hb : 0 < b) : ⌊(a : ℚ) / (b : ℚ)⌋ = a / b := by
  obtain ⟨n, rfl⟩ := Int.eq_ofNat_of_zero_le (le_of_lt hb)
  rw [Int.cast_natCast]
  exact Rat.floor_intCast_div_natCast a n

theorem fac_eq_min (fw fh lw lh : Int) (hfw : 0 ≤ fw) (hfh : 0 ≤ fh) (hlw : 0 < lw)
    (hlh : 0 < lh) : fac fw fh lw lh = min (fw / lw) (fh / lh) := by
  have hw : (0 : ℚ) ≤ (fw : ℚ) / (lw : ℚ) :=
    div_nonneg (Int.cast_nonneg.mpr hfw) (Int.cast_nonneg.mpr (le_of_lt hlw))
  have hh : (0 : ℚ) ≤ (fh : ℚ) / (lh : ℚ) :=
    div_nonneg (Int.cast_nonneg.mpr hfh) (Int.cast_nonneg.mpr (le_of_lt hlh))
  have hmin : (if (fw : ℚ) / (lw : ℚ) < (fh : ℚ) / (lh : ℚ) then (fw : ℚ) / (lw : ℚ)
      else (fh : ℚ) / (lh : ℚ)) = min ((fw : ℚ) / (lw : ℚ)) ((fh : ℚ) / (lh : ℚ)) := by
    split_ifs with h
    · exact (min_eq_left (le_of_lt h)).symm
    · exact (min_eq_right (not_lt.mp h)).symm
  have hfl : ⌊min ((fw : ℚ) / (lw : ℚ)) ((fh : ℚ) / (lh : ℚ))⌋
      = min ⌊(fw : ℚ) / (lw : ℚ)⌋ ⌊(fh : ℚ) / (lh : ℚ)⌋ :=
    Monotone.map_min (@Int.floor_mono ℚ _ _)
  show toInt (if (fw : ℚ) / (lw : ℚ) < (fh : ℚ) / (lh : ℚ) then (fw : ℚ) / (lw : ℚ)
      else (fh : ℚ) / (lh : ℚ)) = _
  rw [hmin, toInt_of_nonneg _ (le_min hw hh), hfl,
    floor_div_pos fw lw hlw, floor_div_pos fh lh hlh]

/-! ## Lemmas on the blink loop -/

theorem steps_add {S : Type} (L : Ugfx S) :
    ∀ (m n : Nat) (s : State S), steps L (m + n) s = (steps L m s).bind (steps L n) := by
  intro m
  induction m with
  | zero => intro n s; simp [steps]
  | succ m ih =>
    intro n s
    rw [Nat.succ_add]
    simp only [steps]
    cases step L s with
    | none => rfl
    | some s1 => exact ih n s1

theorem steps_ten {S : Type} (L : Ugfx S) (s : State S) (h : s.pc = .whileTest) :
    steps L 10 s = some (afterCycle L s) := by
  obtain ⟨pc, fb, lm, tr, fr⟩ := s
  subst h
  simp [steps, step, whileCondition, afterCycle, blinkCalls]

theorem afterCycle_pc {S : Type} (L : Ugfx S) (s : State S) :
    (afterCycle L s).pc = .whileTest := rfl

theorem iterate_afterCycle_pc {S : Type} (L : Ugfx S) (s : State S) (h : s.pc = .whileTest) :
    ∀ n, ((afterCycle L)^[n] s).pc = .whileTest := by
  intro n
  cases n with
  | zero => exact h
  | succ n => rw [Function.iterate_succ_apply']; rfl

theorem steps_cycles {S : Type} (L : Ugfx S) (s : State S) (h : s.pc = .whileTest) :
    ∀ n, steps L (10 * n) s = some ((afterCycle L)^[n] s) := by
  intro n
  induction n with
  | zero => rfl
  | succ n ih =>
    rw [Nat.mul_succ, steps_add, ih, Option.some_bind,
      steps_ten L _ (iterate_afterCycle_pc L s h n), Function.iterate_succ_apply']

theorem step_inLoop {S : Type} (L : Ugfx S) (s t : State S) (h : s.pc.inLoop = true)
    (hst : step L s = some t) : t.pc.inLoop = true := by
  obtain ⟨pc, fb, lm, tr, fr⟩ := s
  cases pc <;> simp [step, whileCondition, PC.inLoop] at h hst <;> subst hst <;> rfl

theorem step_logom {S : Type} (L : Ugfx S) (s t : State S) (hst : step L s = some t) :
    t.logom = s.logom := by
  obtain ⟨pc, fb, lm, tr, fr⟩ := s
  cases pc <;> simp [step, whileCondition] at hst <;> subst hst <;> rfl

theorem step_progress {S : Type} (L : Ugfx S) (s : State S) (h : s.pc.inLoop = true) :
    ∃ t, step L s = some t := by
  obtain ⟨pc, fb, lm, tr, fr⟩ := s
  cases pc <;> simp [step, whileCondition, PC.inLoop] at h ⊢

theorem reachable_inLoop {S : Type} (L : Ugfx S) (s t : State S) (h : s.pc.inLoop = true)
    (hr : Reachable L s t) : t.pc.inLoop = true := by
  induction hr with
  | refl => exact h
  | tail _ hstep ih => exact step_inLoop L _ _ ih hstep

theorem reachable_logom {S : Type} (L : Ugfx S) (s t : State S)
    (hr : Reachable L s t) : t.logom = s.logom := by
  induction hr with
  | refl => rfl
  | tail _ hstep ih => rw [step_logom L _ _ hstep, ih]

theorem steps_reachable {S : Type} (L : Ugfx S) :
    ∀ (n : Nat) (s t : State S), steps L n s = some t → Reachable L s t := by
  intro n
  induction n with
  | zero =>
    intro s t h
    simp only [steps, Option.some.injEq] at h
    subst h
    exact Reachable.refl
  | succ n ih =>
    intro s t h
    have h2 : steps L (n + 1) s = (steps L n s).bind (steps L 1) := steps_add L n 1 s
    rw [h] at h2
    cases hn : steps L n s with
    | none => rw [hn] at h2; simp at h2
    | some u =>
      rw [hn, Option.some_bind] at h2
      refine Reachable.tail (ih s u hn) ?_
      show step L u = some t
      simp only [steps] at h2
      cases hu : step L u with
      | none => rw [hu] at h2; simp at h2
      | some v => rw [hu] at h2; simp only [Option.some.injEq] at h2; rw [h2]

theorem steps_total {S : Type} (L : Ugfx S) :
    ∀ (n : Nat) (s : State S), s.pc.inLoop = true → ∃ t, steps L n s = some t := by
  intro n
  induction n with
  | zero => intro s _; exact ⟨s, rfl⟩
  | succ n ih =>
    intro s h
    obtain ⟨u, hu⟩ := step_progress L s h
    obtain ⟨t, ht⟩ := ih u (step_inLoop L s u h hu)
    exact ⟨t, by simp only [steps, hu]; exact ht⟩

theorem mainPrelude_of_backend {S D : Type} (L : Ugfx S) (WIRINGPI : Bool) (argv : List String)
    (logoH versionH : Header D) (b : Backend) (h : selectBackend WIRINGPI argv = .backend b) :
    ∃ lst vst, loadRun logoH = some lst ∧ loadRun versionH = some vst ∧
      mainPrelude L WIRINGPI argv logoH versionH =
        .running (drawSplash L (construct L b)
          (L.surface logoH.width logoH.height (L.bypp (construct L b)) lst.data32)
          (L.surface versionH.width versionH.height (L.bypp (construct L b)) vst.data32)) := by
  obtain ⟨lst, hl, hL⟩ := LOAD_eq L logoH (L.bypp (construct L b))
  obtain ⟨vst, hv, hV⟩ := LOAD_eq L versionH (L.bypp (construct L b))
  refine ⟨lst, vst, hl, hv, ?_⟩
  simp only [mainPrelude, h, load_logo, load_version, hL, hV]

/-! ## Lemmas on the pixel model -/

theorem fillSurf_fillSurf (s : Surf) (c d : Int) : fillSurf (fillSurf s c) d = fillSurf s d := rfl

theorem fillSurf_blit (R : Drawing) (dst src : Surf) (x y c : Int) :
    fillSurf ((pixelUgfx R).blit dst src x y) c = fillSurf dst c := rfl

theorem mem_fillSurf_pixels (s : Surf) (c v : Int) (h : v ∈ (fillSurf s c).pixels) : v = c :=
  List.eq_of_mem_replicate h

theorem blinkFrames_length {S : Type} (Z W F : S) : ∀ n, (blinkFrames Z W F n).length = 3 * n + 1 := by
  intro n
  induction n with
  | zero => rfl
  | succ n ih =>
    simp only [blinkFrames, List.length_append, ih, List.length_cons, List.length_nil]
    omega

theorem blinkFrames_head {S : Type} (Z W F : S) : ∀ n, (blinkFrames Z W F n)[0]? = some F := by
  intro n
  induction n with
  | zero => rfl
  | succ n ih =>
    simp only [blinkFrames]
    rw [List.getElem?_append_left (by rw [blinkFrames_length]; omega)]
    exact ih

theorem blinkFrames_last {S : Type} (Z W F : S) :
    ∀ n, (blinkFrames Z W F n)[3 * n]? = some F := by
  intro n
  cases n with
  | zero => rfl
  | succ n =>
    simp only [blinkFrames]
    rw [List.getElem?_append_right (by rw [blinkFrames_length]; omega), blinkFrames_length]
    have e : 3 * (n + 1) - (3 * n + 1) = 2 := by omega
    rw [e]
    rfl

theorem pixel_cycles (R : Drawing) (framebuffer logom : Surf) (s : State Surf)
    (hfb : s.framebuffer = (pixelUgfx R).blit (fillSurf framebuffer 255) logom 0 0)
    (hlm : s.logom = logom)
    (hfr : s.frames = [(pixelUgfx R).blit (fillSurf framebuffer 255) logom 0 0]) :
    ∀ n, ((afterCycle (pixelUgfx R))^[n] s).framebuffer =
          (pixelUgfx R).blit (fillSurf framebuffer 255) logom 0 0 ∧
        ((afterCycle (pixelUgfx R))^[n] s).logom = logom ∧
        ((afterCycle (pixelUgfx R))^[n] s).frames =
          blinkFrames (fillSurf framebuffer 0) (fillSurf framebuffer 255)
            ((pixelUgfx R).blit (fillSurf framebuffer 255) logom 0 0) n := by
  intro n
  induction n with
  | zero => exact ⟨hfb, hlm, hfr⟩
  | succ n ih =>
    obtain ⟨h1, h2, h3⟩ := ih
    rw [Function.iterate_succ_apply']
    refine ⟨?_, ?_, ?_⟩
    · show (pixelUgfx R).blit (fillSurf (fillSurf _ 0) 255) _ 0 0 = _
      rw [h1, h2, fillSurf_fillSurf, fillSurf_blit, fillSurf_fillSurf]
    · exact h2
    · show _ ++ [fillSurf _ 0, fillSurf (fillSurf _ 0) 255,
        (pixelUgfx R).blit (fillSurf (fillSurf _ 0) 255) _ 0 0] = _
      rw [h1, h2, h3, fillSurf_fillSurf, fillSurf_blit, fillSurf_fillSurf]
      rfl

/-! ## The claims -/

/-- C1: backend selection.  Without `WIRINGPI` the backend is
`screen("/dev/fb0")` for every argument list, and so it is with `WIRINGPI` when
`argc <= 1`.  With `WIRINGPI` and `argc > 1`, `argv[1]` equal to `auto`,
`nokia5110`, `jlx12864` selects `spiscreen(-1)`, `spiscreen(0)`,
`spiscreen(1)`, and every other `argv[1]` ends the program in `exit(1)` with no
backend constructed.  The lines before the blink loop end in `exit` exactly
when `WIRINGPI` is defined, `argc > 1` and `argv[1]` is none of the three
names, the status is then 1, and a run that passes the selection reaches the
loop, from where every number of steps can be taken: there is no other exit. -/
theorem C1_backend_selection {S D : Type} (L : Ugfx S) (argv : List String)
    (logoH versionH : Header D) :
    selectBackend false argv = .backend (.screen "/dev/fb0") ∧
    (argv.length ≤ 1 → selectBackend true argv = .backend (.screen "/dev/fb0")) ∧
    (1 < argv.length → argv[1]? = some "auto" →
      selectBackend true argv = .backend (.spiscreen (-1))) ∧
    (1 < argv.length → argv[1]? = some "nokia5110" →
      selectBackend true argv = .backend (.spiscreen 0)) ∧
    (1 < argv.length → argv[1]? = some "jlx12864" →
      selectBackend true argv = .backend (.spiscreen 1)) ∧
    (∀ a, 1 < argv.length → argv[1]? = some a → a ≠ "auto" → a ≠ "nokia5110" →
      a ≠ "jlx12864" → selectBackend true argv = .exit ("unknown lcd " ++ a ++ "\n") 1) ∧
    (∀ W : Bool, (∃ out status, mainPrelude L W argv logoH versionH = .exit out status) ↔
      (W = true ∧ 1 < argv.length ∧ argv[1]? ≠ some "auto" ∧ argv[1]? ≠ some "nokia5110" ∧
        argv[1]? ≠ some "jlx12864")) ∧
    (∀ (W : Bool) out status, mainPrelude L W argv logoH versionH = .exit out status →
      status = 1 ∧ selectBackend W argv = .exit out status) ∧
    (∀ (W : Bool) b, selectBackend W argv = .backend b →
      ∃ st, mainPrelude L W argv logoH versionH = .running st ∧
        ∀ n, ∃ t, steps L n st = some t ∧ t.pc ≠ .returned) := by
  have hsel : ∀ W : Bool, (∃ out status, selectBackend W argv = .exit out status) ↔
      (W = true ∧ 1 < argv.length ∧ argv[1]? ≠ some "auto" ∧ argv[1]? ≠ some "nokia5110" ∧
        argv[1]? ≠ some "jlx12864") := by
    intro W
    match argv with
    | [] => cases W <;> simp [selectBackend]
    | [_] => cases W <;> simp [selectBackend]
    | _ :: a :: _ =>
      cases W
      · simp [selectBackend]
      · by_cases h1 : a = "auto"
        · simp [selectBackend, h1]
        · by_cases h2 : a = "nokia5110"
          · simp [selectBackend, h2]
          · by_cases h3 : a = "jlx12864"
            · simp [selectBackend, h3]
            · simp [selectBackend, h1, h2, h3]
  have hstatus : ∀ (W : Bool) out status, selectBackend W argv = .exit out status → status = 1 := by
    intro W out status h
    unfold selectBackend at h
    split_ifs at h
    cases h
    rfl
  have hmain : ∀ (W : Bool) out status, mainPrelude L W argv logoH versionH = .exit out status →
      selectBackend W argv = .exit out status := by
    intro W out status h
    cases hs : selectBackend W argv with
    | exit o st =>
      simp only [mainPrelude, hs, Outcome.exit.injEq] at h
      rw [h.1, h.2]
    | backend b =>
      obtain ⟨lst, vst, _, _, hrun⟩ := mainPrelude_of_backend L W argv logoH versionH b hs
      rw [hrun] at h
      cases h
  refine ⟨rfl, ?_, ?_, ?_, ?_, ?_, ?_, ?_, ?_⟩
  · intro h
    simp only [selectBackend, if_true]
    rw [if_neg (by omega)]
  · intro h h1
    match argv, h, h1 with
    | _ :: a :: _, _, h1 =>
      simp only [List.getElem?_cons_succ, List.getElem?_cons_zero, Option.some.injEq] at h1
      simp [selectBackend, h1]
  · intro h h1
    match argv, h, h1 with
    | _ :: a :: _, _, h1 =>
      simp only [List.getElem?_cons_succ, List.getElem?_cons_zero, Option.some.injEq] at h1
      simp [selectBackend, h1]
  · intro h h1
    match argv, h, h1 with
    | _ :: a :: _, _, h1 =>
      simp only [List.getElem?_cons_succ, List.getElem?_cons_zero, Option.some.injEq] at h1
      simp [selectBackend, h1]
  · intro a h h1 n1 n2 n3
    match argv, h, h1 with
    | _ :: a1 :: _, _, h1 =>
      simp only [List.getElem?_cons_succ, List.getElem?_cons_zero, Option.some.injEq] at h1
      subst h1
      simp [selectBackend, n1, n2, n3]
  · intro W
    rw [← hsel W]
    constructor
    · rintro ⟨out, status, h⟩
      exact ⟨out, status, hmain W out status h⟩
    · rintro ⟨out, status, h⟩
      exact ⟨out, status, by simp only [mainPrelude, h]⟩
  · intro W out status h
    exact ⟨hstatus W out status (hmain W out status h), hmain W out status h⟩
  · intro W b h
    obtain ⟨lst, vst, _, _, hrun⟩ := mainPrelude_of_backend L W argv logoH versionH b h
    refine ⟨_, hrun, ?_⟩
    intro n
    obtain ⟨t, ht⟩ := steps_total L n _ (show (drawSplash L _ _ _).pc.inLoop = true from rfl)
    refine ⟨t, ht, ?_⟩
    intro hpc
    have := reachable_inLoop L _ t (show (drawSplash L _ _ _).pc.inLoop = true from rfl)
      (steps_reachable L n _ t ht)
    rw [hpc] at this
    cases this

/-- C3: scale to fit.  For positive framebuffer and logo dimensions the factor
`fac` of `main` (division exact, conversion to `int` by truncation) equals
`min(fw div lw, fh div lh)`; it is not negative, `fac*lw <= fw` and
`fac*lh <= fh`, and every integer `k` with `k*lw <= fw` and `k*lh <= fh` is at
most `fac`. -/
theorem C3_fac_scale_to_fit (fw fh lw lh : Int) (hfw : 0 < fw) (hfh : 0 < fh) (hlw : 0 < lw)
    (hlh : 0 < lh) :
    fac fw fh lw lh = min (fw / lw) (fh / lh) ∧
    0 ≤ fac fw fh lw lh ∧
    fac fw fh lw lh * lw ≤ fw ∧
    fac fw fh lw lh * lh ≤ fh ∧
    (∀ k : Int, k * lw ≤ fw → k * lh ≤ fh → k ≤ fac fw fh lw lh) := by
  have h := fac_eq_min fw fh lw lh (le_of_lt hfw) (le_of_lt hfh) hlw hlh
  have hw0 : 0 ≤ fw / lw := Int.ediv_nonneg (le_of_lt hfw) (le_of_lt hlw)
  have hh0 : 0 ≤ fh / lh := Int.ediv_nonneg (le_of_lt hfh) (le_of_lt hlh)
  refine ⟨h, ?_, ?_, ?_, ?_⟩
  · rw [h]; exact le_min hw0 hh0
  · rw [h]
    calc min (fw / lw) (fh / lh) * lw ≤ fw / lw * lw :=
          Int.mul_le_mul_of_nonneg_right (min_le_left _ _) (le_of_lt hlw)
      _ ≤ fw := Int.ediv_mul_le fw (ne_of_gt hlw)
  · rw [h]
    calc min (fw / lw) (fh / lh) * lh ≤ fh / lh * lh :=
          Int.mul_le_mul_of_nonneg_right (min_le_right _ _) (le_of_lt hlh)
      _ ≤ fh := Int.ediv_mul_le fh (ne_of_gt hlh)
  · intro k hkw hkh
    rw [h]
    exact le_min ((Int.le_ediv_iff_mul_le hlw).mpr hkw) ((Int.le_ediv_iff_mul_le hlh).mpr hkh)

/-- Witness of C3: a 128 by 64 display and a 48 by 30 logo give factor 2. -/
theorem C3_fac_scale_to_fit_witness :
    (0 : Int) < 128 ∧ (0 : Int) < 64 ∧ (0 : Int) < 48 ∧ (0 : Int) < 30 ∧
      fac 128 64 48 30 = 2 :=
  ⟨by decide, by decide, by decide, by decide,
    (C3_fac_scale_to_fit 128 64 48 30 (by decide) (by decide) (by decide) (by decide)).1.trans
      (by decide)⟩

/-- C6: placement of the version banner.  The call on line 86 is the first call
of `main` and blits `version` onto `logo` at offset
`(lw - vw, lh - vh)`; the rectangle of the banner then ends at `(lw, lh)`, the
bottom-right corner of the logo, and both offsets are non-negative exactly when
`vw <= lw` and `vh <= lh`. -/
theorem C6_version_placement {S : Type} (L : Ugfx S) (framebuffer logo version : S)
    (lw lh vw vh : Int) :
    (drawSplash L framebuffer logo version).trace.head? =
      some (.blit .logo .version (L.width logo - L.width version)
        (L.height logo - L.height version)) ∧
    versionOffset lw lh vw vh = (lw - vw, lh - vh) ∧
    (versionOffset lw lh vw vh).1 + vw = lw ∧
    (versionOffset lw lh vw vh).2 + vh = lh ∧
    ((0 ≤ (versionOffset lw lh vw vh).1 ∧ 0 ≤ (versionOffset lw lh vw vh).2) ↔
      (vw ≤ lw ∧ vh ≤ lh)) := by
  refine ⟨rfl, rfl, ?_, ?_, ?_⟩
  · show lw - vw + vw = lw
    omega
  · show lh - vh + vh = lh
    omega
  · show (0 ≤ lw - vw ∧ 0 ≤ lh - vh) ↔ (vw ≤ lw ∧ vh ≤ lh)
    omega

/-- C4: order of the drawing calls.  On every run whose backend selection
yields a backend, both images load and `main` reaches the blink loop having
issued exactly six calls, in this order: `logo->blit(version, ...)`,
`logom->magnify(logo, fac)`, `logom->invert(0, 0, logom->width, logom->height)`
with the dimensions `logom` has after `magnify`, `framebuffer->fill(255)`,
`framebuffer->blit(logom, 0, 0)`, `framebuffer->refresh()`.  The source of
`magnify` is the logo with the banner blitted on, `invert` acts on the
magnified surface, and the first calls on the framebuffer are the last three. -/
theorem C4_drawing_order {S D : Type} (L : Ugfx S) (WIRINGPI : Bool) (argv : List String)
    (logoH versionH : Header D) (b : Backend) (h : selectBackend WIRINGPI argv = .backend b) :
    ∃ logo version logo1 logom1 st,
      load_logo L logoH (L.bypp (construct L b)) = some logo ∧
      load_version L versionH (L.bypp (construct L b)) = some version ∧
      logo1 = L.blit logo version (L.width logo - L.width version)
        (L.height logo - L.height version) ∧
      logom1 = L.magnify (L.surfaceFrom (construct L b)) logo1
        (fac (L.width (construct L b)) (L.height (construct L b)) (L.width logo)
          (L.height logo)) ∧
      mainPrelude L WIRINGPI argv logoH versionH = .running st ∧
      st.pc = .whileTest ∧
      st.trace =
        [ .blit .logo .version (L.width logo - L.width version)
            (L.height logo - L.height version),
          .magnify .logom .logo
            (fac (L.width (construct L b)) (L.height (construct L b)) (L.width logo)
              (L.height logo)),
          .invert .logom 0 0 (L.width logom1) (L.height logom1),
          .fill .framebuffer 255,
          .blit .framebuffer .logom 0 0,
          .refresh .framebuffer ] ∧
      st.logom = L.invert logom1 0 0 (L.width logom1) (L.height logom1) ∧
      st.frames = [L.blit (L.fill (construct L b) 255) st.logom 0 0] ∧
      st.framebuffer = L.refresh (L.blit (L.fill (construct L b) 255) st.logom 0 0) := by
  obtain ⟨lst, vst, hl, hv, hrun⟩ := mainPrelude_of_backend L WIRINGPI argv logoH versionH b h
  refine ⟨_, _, _, _, _, ?_, ?_, rfl, rfl, hrun, rfl, rfl, rfl, rfl, rfl⟩
  · simp only [load_logo, LOAD, hl]
  · simp only [load_version, LOAD, hv]

/-- Witness of C4: the run `splash nokia5110` with `WIRINGPI` defined. -/
theorem C4_drawing_order_witness :
    selectBackend true ["splash", "nokia5110"] = .backend (.spiscreen 0) ∧
    ∃ st, mainPrelude (pixelUgfx demoDrawing) true ["splash", "nokia5110"] demoHeader
        demoHeader = .running st ∧
      st.trace =
        [ .blit .logo .version 0 0, .magnify .logom .logo 64, .invert .logom 0 0 128 64,
          .fill .framebuffer 255, .blit .framebuffer .logom 0 0, .refresh .framebuffer ] := by
  refine ⟨by decide, ?_⟩
  obtain ⟨logo, version, logo1, logom1, st, hl, hv, h1, hm, hrun, _, htr, _⟩ :=
    C4_drawing_order (pixelUgfx demoDrawing) true ["splash", "nokia5110"] demoHeader
      demoHeader (.spiscreen 0) (by decide)
  refine ⟨st, hrun, ?_⟩
  have hl1 : load_logo (pixelUgfx demoDrawing) demoHeader
      ((pixelUgfx demoDrawing).bypp (construct (pixelUgfx demoDrawing) (.spiscreen 0))) =
      some { width := 2, height := 1, bypp := 1, pixels := [] } := rfl
  have hv1 : load_version (pixelUgfx demoDrawing) demoHeader
      ((pixelUgfx demoDrawing).bypp (construct (pixelUgfx demoDrawing) (.spiscreen 0))) =
      some { width := 2, height := 1, bypp := 1, pixels := [] } := rfl
  rw [hl1] at hl
  rw [hv1] at hv
  cases hl
  cases hv
  have hfac : fac 128 64 2 1 = 64 :=
    (fac_eq_min 128 64 2 1 (by decide) (by decide) (by decide) (by decide)).trans (by decide)
  have hfac1 : fac ((pixelUgfx demoDrawing).width (construct (pixelUgfx demoDrawing) (.spiscreen 0)))
      ((pixelUgfx demoDrawing).height (construct (pixelUgfx demoDrawing) (.spiscreen 0)))
      ((pixelUgfx demoDrawing).width { width := 2, height := 1, bypp := 1, pixels := [] })
      ((pixelUgfx demoDrawing).height { width := 2, height := 1, bypp := 1, pixels := [] }) = 64 :=
    hfac
  rw [hfac1] at hm htr
  subst h1
  subst hm
  rw [htr]
  rfl

/-- C5: the blink loop never ends.  From the state in which `main` enters line
96, every reachable state is at a program point inside `while(1)`: it is
neither at `delete framebuffer` nor past the end of `main`, and it has a
successor.  For every `n`, pass `n` of the loop starts at the loop test after
`10*n` steps, ends at the loop test ten steps later, and appends to the trace
exactly the nine calls `fill(0)`, `refresh()`, `usleep(1000000)`, `fill(255)`,
`refresh()`, `usleep(1000000)`, `blit(logom, 0, 0)`, `refresh()`,
`usleep(1000000)`, in this order. -/
theorem C5_blink_loop_never_ends {S : Type} (L : Ugfx S) (framebuffer logo version : S) :
    (∀ t, Reachable L (drawSplash L framebuffer logo version) t →
      t.pc.inLoop = true ∧ t.pc ≠ .l108_delete ∧ t.pc ≠ .returned ∧ ∃ u, Step L t u) ∧
    (∀ n, ∃ t, steps L n (drawSplash L framebuffer logo version) = some t) ∧
    (∀ n, ∃ t u, steps L (10 * n) (drawSplash L framebuffer logo version) = some t ∧
      t.pc = .whileTest ∧
      steps L 10 t = some u ∧
      steps L (10 * (n + 1)) (drawSplash L framebuffer logo version) = some u ∧
      u.pc = .whileTest ∧
      t.trace.length = 6 + 9 * n ∧
      u.trace = t.trace ++
        [ .fill .framebuffer 0, .refresh .framebuffer, .usleep 1000000,
          .fill .framebuffer 255, .refresh .framebuffer, .usleep 1000000,
          .blit .framebuffer .logom 0 0, .refresh .framebuffer, .usleep 1000000 ]) := by
  have h0 : (drawSplash L framebuffer logo version).pc = .whileTest := rfl
  have hin : (drawSplash L framebuffer logo version).pc.inLoop = true := rfl
  refine ⟨?_, ?_, ?_⟩
  · intro t ht
    have hl := reachable_inLoop L _ t hin ht
    refine ⟨hl, ?_, ?_, step_progress L t hl⟩
    · intro h; rw [h] at hl; cases hl
    · intro h; rw [h] at hl; cases hl
  · intro n
    exact steps_total L n _ hin
  · intro n
    have hpc := iterate_afterCycle_pc L _ h0 n
    refine ⟨_, _, steps_cycles L _ h0 n, hpc, steps_ten L _ hpc, ?_, rfl, ?_, rfl⟩
    · rw [steps_cycles L _ h0 (n + 1), Function.iterate_succ_apply']
    · induction n with
      | zero => rfl
      | succ n ih =>
        rw [Function.iterate_succ_apply']
        show (_ ++ blinkCalls).length = _
        rw [List.length_append, ih (iterate_afterCycle_pc L _ h0 n)]
        show 6 + 9 * n + 9 = _
        omega

/-- C8: the same frame at start-up and in every blink cycle.  With `fill(v)`
overwriting every pixel of the framebuffer with `v`, `blit` a function of
destination, source and offset, and `refresh` leaving the pixels as they are:
the frame sent by the `refresh()` before the loop is `blit(logom, 0, 0)`
applied to the framebuffer filled with 255, all of whose pixels are 255; after
every pass `n` of the loop, `3*(n+1)+1` frames have been sent, and the last of
them, sent by the third `refresh()` of pass `n`, equals the first one; and in
every reachable state `logom` is the surface that `invert` returned. -/
theorem C8_same_frame_every_cycle (R : Drawing) (framebuffer logo version : Surf) :
    (∀ v, v ∈ (fillSurf framebuffer 255).pixels → v = 255) ∧
    (drawSplash (pixelUgfx R) framebuffer logo version).frames =
      [(pixelUgfx R).blit (fillSurf framebuffer 255)
        (drawSplash (pixelUgfx R) framebuffer logo version).logom 0 0] ∧
    (∀ n, ∃ t, steps (pixelUgfx R) (10 * (n + 1))
        (drawSplash (pixelUgfx R) framebuffer logo version) = some t ∧
      t.frames.length = 3 * (n + 1) + 1 ∧
      t.frames[0]? = some ((pixelUgfx R).blit (fillSurf framebuffer 255)
        (drawSplash (pixelUgfx R) framebuffer logo version).logom 0 0) ∧
      t.frames[3 * (n + 1)]? = t.frames[0]?) ∧
    (∀ t, Reachable (pixelUgfx R) (drawSplash (pixelUgfx R) framebuffer logo version) t →
      t.logom = (drawSplash (pixelUgfx R) framebuffer logo version).logom) := by
  have h0 : (drawSplash (pixelUgfx R) framebuffer logo version).pc = .whileTest := rfl
  refine ⟨fun v hv => mem_fillSurf_pixels framebuffer 255 v hv, rfl, ?_, ?_⟩
  · intro n
    obtain ⟨_, _, hfr⟩ := pixel_cycles R framebuffer
      (drawSplash (pixelUgfx R) framebuffer logo version).logom
      (drawSplash (pixelUgfx R) framebuffer logo version) rfl rfl rfl (n + 1)
    refine ⟨_, steps_cycles (pixelUgfx R) _ h0 (n + 1), ?_, ?_, ?_⟩
    · rw [hfr, blinkFrames_length]
    · rw [hfr, blinkFrames_head]
    · rw [hfr, blinkFrames_last, blinkFrames_head]
  · intro t ht
    exact reachable_logom (pixelUgfx R) _ t ht

end Splash
